import Mathlib

/-!
Shallow embedding of the ironpath toolpath-generation core
(`src/src/lib.rs`): data model, the additive and subtractive
`generate_toolpaths` loops, and theorems about them.

Floating-point `Real` values of the source are modelled as exact
rationals; the literal `1e-7` becomes `1 / 10000000`.  The external
geometry library (csgrs) is out of scope per the specification:
its `CSG` solid, `translate`, `slice` and `to_polyline` capabilities
are modelled abstractly, following the contracts of the spec's
"External interfaces" section (translate returns a translated copy,
slicing is a pure function of model and plane, `to_polyline` yields
one 2D point per polygon vertex).  The potentially non-terminating
`while` loops of the source are embedded fuel-indexed: `none` means
the loop has not finished within the given fuel.

Fidelity caveat: the embedded loops advance `z` by exact rational
addition, whereas the source adds rounded `f64` values.  Exact
stepping always makes progress for a positive step, but `f64`
addition can absorb (for large `z` relative to the step, `z + step`
rounds back to `z`), so the source loop can fail to terminate on
finite configurations with a strictly positive step.  Termination
properties of the source therefore hinge on IEEE-754 rounding and
are not represented here; the embedding is used for guard logic at
non-positive steps, data flow, ordering and purity, which do not
depend on rounding.
-/

namespace IronPath

/-- The scalar type of the source (`csgrs::float_types::Real`), modelled
as exact rationals. -/
abbrev Real : Type := ℚ

/-- A position in 3D space (`nalgebra::Point3<Real>`). -/
structure Point3 where
  x : Real
  y : Real
  z : Real
deriving DecidableEq, Repr

/-- A 3D vector (`nalgebra::Vector3<Real>`). -/
structure Vector3 where
  x : Real
  y : Real
  z : Real
deriving DecidableEq, Repr

/-- `Vector3::z()`, the unit vector along the z axis. -/
def Vector3.zAxis : Vector3 := ⟨0, 0, 1⟩

/-- A plane given by a normal and an offset (`csgrs::plane::Plane`). -/
structure Plane where
  normal : Vector3
  w : Real

/-- A vertex of a csgrs polygon; only its position is consumed by the
toolpath core. -/
structure Vertex where
  pos : Point3
deriving DecidableEq, Repr

/-- A planar polygon of the external geometry library: an ordered vertex
loop (`csgrs::polygon::Polygon`). -/
structure Polygon where
  vertices : List Vertex
deriving DecidableEq, Repr

/-- A 2D polyline vertex (cavalier_contours `PlineVertex`): the data the
source reads from `pline2d.vertex_data`. -/
structure PlineVertex where
  x : Real
  y : Real
deriving DecidableEq, Repr

/-- A 2D polyline as returned by `Polygon::to_polyline`. -/
structure Polyline where
  vertex_data : List PlineVertex
deriving DecidableEq, Repr

/-- Modelled from the spec: `polygon_to_2d_loop` projects a planar polygon
(already lying in the cutting plane) to its ordered 2D vertex loop, one
2D point per vertex (`Polygon::to_polyline` of csgrs). -/
def Polygon.to_polyline (p : Polygon) : Polyline :=
  ⟨p.vertices.map (fun v => ⟨v.pos.x, v.pos.y⟩)⟩

/-- Modelled from the spec: the external solid model (`csgrs::csg::CSG`).
The core only requires rigid translation and plane intersection, so a
model is embedded as the rigid translation applied to it so far together
with an abstract, pure slicing oracle giving, for each accumulated
translation and each plane, the cross-section polygons. -/
structure CSG where
  offset : Vector3
  sliceRaw : Vector3 → Plane → List Polygon

/-- `CSG::translate`: returns a rigidly translated copy; the input model
is left untouched. -/
def CSG.translate (m : CSG) (v : Vector3) : CSG :=
  { offset := ⟨m.offset.x + v.x, m.offset.y + v.y, m.offset.z + v.z⟩
    sliceRaw := m.sliceRaw }

/-- `CSG::slice`: cross-section polygons of the model cut by a plane;
pure function of the (translated) model and the plane. -/
def CSG.slice (m : CSG) (p : Plane) : List Polygon :=
  m.sliceRaw m.offset p

/-- A toolpath as a polyline in 3D (`ToolpathSegment` of the source). -/
structure ToolpathSegment where
  points : List Point3
deriving DecidableEq, Repr

/-- A collection of toolpaths (`ToolpathSet` of the source). -/
structure ToolpathSet where
  segments : List ToolpathSegment
deriving DecidableEq, Repr

/-- Configuration for additive manufacturing (`AdditiveConfig`). -/
structure AdditiveConfig where
  layer_height : Real
  min_z : Real
  max_z : Real
deriving DecidableEq, Repr

/-- Configuration for subtractive manufacturing (`SubtractiveConfig`). -/
structure SubtractiveConfig where
  step_down : Real
  min_z : Real
  max_z : Real
deriving DecidableEq, Repr

/-- The loop-bound tolerance `1e-7` of both generators. -/
def eps : Real := 1 / 10000000

/-- Body of the additive generator's while loop at height `z`
(src/src/lib.rs, lines 66-92): translate the model by `(0,0,-z)`, slice
at the plane `z = 0`, and for every cross-section polygon with at least
3 vertices emit one segment whose points are the polygon's 2D loop
lifted back to height `z`. -/
def additiveSliceAt (model : CSG) (z : Real) : List ToolpathSegment :=
  let model_shifted := model.translate ⟨0, 0, -z⟩
  let cross_section := model_shifted.slice ⟨Vector3.zAxis, 0⟩
  cross_section.filterMap (fun poly =>
    if poly.vertices.length < 3 then none
    else
      let pline2d := poly.to_polyline
      some ⟨pline2d.vertex_data.map (fun v2d => ⟨v2d.x, v2d.y, z⟩)⟩)

/-- Body of the subtractive generator's while loop at height `z`
(src/src/lib.rs, lines 118-139), transcribed from its own source text. -/
def subtractiveSliceAt (model : CSG) (z : Real) : List ToolpathSegment :=
  let model_shifted := model.translate ⟨0, 0, -z⟩
  let cross_section := model_shifted.slice ⟨Vector3.zAxis, 0⟩
  cross_section.filterMap (fun poly =>
    if poly.vertices.length < 3 then none
    else
      let pline2d := poly.to_polyline
      some ⟨pline2d.vertex_data.map (fun v2d => ⟨v2d.x, v2d.y, z⟩)⟩)

/-- The additive generator's while loop (`while z <= cfg.max_z + 1e-7`),
fuel-indexed: `none` when the fuel runs out before the loop exits. -/
def additiveLoop (model : CSG) (cfg : AdditiveConfig) :
    ℕ → Real → List ToolpathSegment → Option (List ToolpathSegment)
  | 0, _, _ => none
  | fuel + 1, z, acc =>
    if z ≤ cfg.max_z + eps then
      additiveLoop model cfg fuel (z + cfg.layer_height)
        (acc ++ additiveSliceAt model z)
    else
      some acc

/-- `AdditiveToolpathGenerator::generate_toolpaths`: run the additive
loop from `cfg.min_z` with the given fuel. -/
def AdditiveToolpathGenerator.generate_toolpaths
    (fuel : ℕ) (model : CSG) (cfg : AdditiveConfig) : Option ToolpathSet :=
  (additiveLoop model cfg fuel cfg.min_z []).map ToolpathSet.mk

/-- The subtractive generator's while loop
(`while z >= cfg.min_z - 1e-7`), fuel-indexed. -/
def subtractiveLoop (model : CSG) (cfg : SubtractiveConfig) :
    ℕ → Real → List ToolpathSegment → Option (List ToolpathSegment)
  | 0, _, _ => none
  | fuel + 1, z, acc =>
    if cfg.min_z - eps ≤ z then
      subtractiveLoop model cfg fuel (z - cfg.step_down)
        (acc ++ subtractiveSliceAt model z)
    else
      some acc

/-- `SubtractiveToolpathGenerator::generate_toolpaths`: run the
subtractive loop from `cfg.max_z` with the given fuel. -/
def SubtractiveToolpathGenerator.generate_toolpaths
    (fuel : ℕ) (model : CSG) (cfg : SubtractiveConfig) : Option ToolpathSet :=
  (subtractiveLoop model cfg fuel cfg.max_z []).map ToolpathSet.mk

/-- The sequence of heights visited by the additive loop, fuel-indexed
exactly like the loop itself. -/
def additiveHeights (cfg : AdditiveConfig) : ℕ → Real → Option (List Real)
  | 0, _ => none
  | fuel + 1, z =>
    if z ≤ cfg.max_z + eps then
      (additiveHeights cfg fuel (z + cfg.layer_height)).map (fun hs => z :: hs)
    else
      some []

/-- The sequence of heights visited by the subtractive loop. -/
def subtractiveHeights (cfg : SubtractiveConfig) : ℕ → Real → Option (List Real)
  | 0, _ => none
  | fuel + 1, z =>
    if cfg.min_z - eps ≤ z then
      (subtractiveHeights cfg fuel (z - cfg.step_down)).map (fun hs => z :: hs)
    else
      some []

/-- The height at which a segment was sliced, read off its first point
(every emitted segment is nonempty and all its points share one z). -/
def segHeight (s : ToolpathSegment) : Real :=
  match s.points with
  | [] => 0
  | p :: _ => p.z

/-- A sample model used to instantiate theorems: its slicing oracle
returns one square cross-section polygon at every height. -/
def squarePoly : Polygon :=
  ⟨[⟨⟨0, 0, 0⟩⟩, ⟨⟨10, 0, 0⟩⟩, ⟨⟨10, 10, 0⟩⟩, ⟨⟨0, 10, 0⟩⟩]⟩

/-- A concrete model whose cross-section is `squarePoly` at every height. -/
def sampleModel : CSG :=
  ⟨⟨0, 0, 0⟩, fun _ _ => [squarePoly]⟩

/-- Point-for-point equality of two segment lists: same number of
segments and, position by position, identical point sequences. -/
def pointForPointEq (a b : List ToolpathSegment) : Prop :=
  a.length = b.length ∧
    ∀ (i : ℕ) (ha : i < a.length) (hb : i < b.length),
      (a.get ⟨i, ha⟩).points = (b.get ⟨i, hb⟩).points

/-- An additive configuration used to instantiate theorems. -/
def addCfg : AdditiveConfig := ⟨1, 0, 1⟩

/-- A subtractive configuration used to instantiate theorems. -/
def subCfg : SubtractiveConfig := ⟨2, 0, 2⟩

/-- An invalid additive configuration (`layer_height = 0`). -/
def invalidAddCfg : AdditiveConfig := ⟨0, 0, 1⟩

/-- An invalid subtractive configuration (`step_down = 0`). -/
def invalidSubCfg : SubtractiveConfig := ⟨0, 0, 1⟩

/-- An additive configuration with `min_z` above `max_z` by half the
loop tolerance: `min_z = 1 + 5e-8`, `max_z = 1`. -/
def nearDegenerateCfg : AdditiveConfig := ⟨1, 1 + 1 / 20000000, 1⟩

/-- An additive configuration with `min_z` far above `max_z`. -/
def emptyRangeCfg : AdditiveConfig := ⟨1, 2, 0⟩

/-- The square cross-section segment of `sampleModel` lifted to height
`z`. -/
def squareSegAt (z : Real) : ToolpathSegment :=
  ⟨[⟨0, 0, z⟩, ⟨10, 0, z⟩, ⟨10, 10, z⟩, ⟨0, 10, z⟩]⟩

/-- Output of the additive generator on `sampleModel` with `addCfg`. -/
def addOut : ToolpathSet := ⟨[squareSegAt 0, squareSegAt 1]⟩

/-- Output of the subtractive generator on `sampleModel` with `subCfg`. -/
def subOut : ToolpathSet := ⟨[squareSegAt 2, squareSegAt 0]⟩

/-- Characterization of the segments emitted by the shared loop body at
height `z`: each comes from a cross-section polygon with at least 3
vertices, its points are the polygon's 2D loop lifted to height `z`,
it has at least 3 points, and all its points carry `z`. -/
theorem mem_additiveSliceAt {model : CSG} {z : Real} {seg : ToolpathSegment}
    (h : seg ∈ additiveSliceAt model z) :
    3 ≤ seg.points.length ∧ (∀ p ∈ seg.points, p.z = z) ∧
    ∃ poly ∈ (model.translate ⟨0, 0, -z⟩).slice ⟨Vector3.zAxis, 0⟩,
      3 ≤ poly.vertices.length ∧
      seg.points = poly.to_polyline.vertex_data.map
        (fun v2d => ⟨v2d.x, v2d.y, z⟩) := by
  rw [additiveSliceAt, List.mem_filterMap] at h
  obtain ⟨poly, hmem, hf⟩ := h
  by_cases hlen : poly.vertices.length < 3
  · simp [hlen] at hf
  · rw [if_neg hlen] at hf
    have hseg : seg = ⟨poly.to_polyline.vertex_data.map
        (fun v2d => ⟨v2d.x, v2d.y, z⟩)⟩ := by
      cases hf; rfl
    subst hseg
    refine ⟨?_, ?_, poly, hmem, not_lt.mp hlen, rfl⟩
    · simp [Polygon.to_polyline]
      omega
    · intro p hp
      rw [List.mem_map] at hp
      obtain ⟨v2d, _, rfl⟩ := hp
      rfl

/-- The additive loop equals the segments of the visited heights, each
height sliced on the original model, appended after the accumulator. -/
theorem additiveLoop_decompose (model : CSG) (cfg : AdditiveConfig) :
    ∀ (fuel : ℕ) (z : Real) (acc : List ToolpathSegment),
      additiveLoop model cfg fuel z acc =
        (additiveHeights cfg fuel z).map
          (fun hs => acc ++ hs.flatMap (additiveSliceAt model)) := by
  intro fuel
  induction fuel with
  | zero => intro z acc; rfl
  | succ n ih =>
    intro z acc
    rw [additiveLoop, additiveHeights]
    by_cases hz : z ≤ cfg.max_z + eps
    · rw [if_pos hz, if_pos hz, ih]
      cases hH : additiveHeights cfg n (z + cfg.layer_height) with
      | none => rfl
      | some hs => simp [List.append_assoc]
    · rw [if_neg hz, if_neg hz]
      simp

/-- With a positive layer height, the number of heights visited from `z`
is `⌊(max_z + eps - z) / layer_height⌋ + 1` whenever the loop guard
admits `z` at all. -/
theorem additiveHeights_length {cfg : AdditiveConfig}
    (hpos : 0 < cfg.layer_height) :
    ∀ (fuel : ℕ) (z : Real) (hs : List Real),
      additiveHeights cfg fuel z = some hs →
      z ≤ cfg.max_z + eps →
      hs.length =
        (⌊(cfg.max_z + eps - z) / cfg.layer_height⌋).toNat + 1 := by
  intro fuel
  induction fuel with
  | zero =>
    intro z hs h
    rw [additiveHeights] at h
    exact absurd h (by simp)
  | succ n ih =>
    intro z hs h hz
    rw [additiveHeights, if_pos hz, Option.map_eq_some'] at h
    obtain ⟨hs', hh, rfl⟩ := h
    by_cases hz' : z + cfg.layer_height ≤ cfg.max_z + eps
    · have hrec := ih (z + cfg.layer_height) hs' hh hz'
      have hne : cfg.layer_height ≠ 0 := ne_of_gt hpos
      have estep : (cfg.max_z + eps - z) / cfg.layer_height =
          (cfg.max_z + eps - (z + cfg.layer_height)) / cfg.layer_height + 1 := by
        field_simp
        ring
      have hnum : 0 ≤ cfg.max_z + eps - (z + cfg.layer_height) := by linarith
      have hfl : 0 ≤ ⌊(cfg.max_z + eps - (z + cfg.layer_height)) /
          cfg.layer_height⌋ :=
        Int.floor_nonneg.mpr (div_nonneg hnum (le_of_lt hpos))
      rw [List.length_cons, hrec, estep, Int.floor_add_one]
      omega
    · have hnil : hs' = [] := by
        cases n with
        | zero =>
          rw [additiveHeights] at hh
          exact absurd hh (by simp)
        | succ m =>
          rw [additiveHeights, if_neg hz'] at hh
          cases hh; rfl
      subst hnil
      have h0 : ⌊(cfg.max_z + eps - z) / cfg.layer_height⌋ = 0 := by
        rw [Int.floor_eq_zero_iff, Set.mem_Ico]
        constructor
        · exact div_nonneg (by linarith) (le_of_lt hpos)
        · rw [div_lt_one hpos]
          linarith
      rw [h0]
      rfl

/-- With a positive layer height, the visited heights are strictly
ascending and bounded below by the starting height. -/
theorem additiveHeights_sorted {cfg : AdditiveConfig}
    (hpos : 0 < cfg.layer_height) :
    ∀ (fuel : ℕ) (z : Real) (hs : List Real),
      additiveHeights cfg fuel z = some hs →
      hs.Sorted (· < ·) ∧ ∀ y ∈ hs, z ≤ y := by
  intro fuel
  induction fuel with
  | zero =>
    intro z hs h
    rw [additiveHeights] at h
    exact absurd h (by simp)
  | succ n ih =>
    intro z hs h
    rw [additiveHeights] at h
    by_cases hz : z ≤ cfg.max_z + eps
    · rw [if_pos hz, Option.map_eq_some'] at h
      obtain ⟨hs', hh, rfl⟩ := h
      obtain ⟨hsort, hlb⟩ := ih (z + cfg.layer_height) hs' hh
      constructor
      · rw [List.sorted_cons]
        exact ⟨fun b hb => lt_of_lt_of_le (by linarith) (hlb b hb), hsort⟩
      · intro y hy
        rcases List.mem_cons.mp hy with hy | hy
        · exact le_of_eq hy.symm
        · linarith [hlb y hy]
    · rw [if_neg hz] at h
      cases h
      simp

/-- With a non-positive layer height and the guard initially true, the
additive loop never finishes: no amount of fuel returns a value. -/
theorem additiveLoop_none_of_nonpos {model : CSG} {cfg : AdditiveConfig}
    (hh : cfg.layer_height ≤ 0) :
    ∀ (fuel : ℕ) (z : Real) (acc : List ToolpathSegment),
      z ≤ cfg.max_z + eps → additiveLoop model cfg fuel z acc = none := by
  intro fuel
  induction fuel with
  | zero => intro z acc _; rfl
  | succ n ih =>
    intro z acc hz
    rw [additiveLoop, if_pos hz]
    exact ih (z + cfg.layer_height) _ (by linarith)

/-- The subtractive loop equals the segments of the visited heights,
each height sliced on the original model, appended after the
accumulator. -/
theorem subtractiveLoop_decompose (model : CSG) (cfg : SubtractiveConfig) :
    ∀ (fuel : ℕ) (z : Real) (acc : List ToolpathSegment),
      subtractiveLoop model cfg fuel z acc =
        (subtractiveHeights cfg fuel z).map
          (fun hs => acc ++ hs.flatMap (subtractiveSliceAt model)) := by
  intro fuel
  induction fuel with
  | zero => intro z acc; rfl
  | succ n ih =>
    intro z acc
    rw [subtractiveLoop, subtractiveHeights]
    by_cases hz : cfg.min_z - eps ≤ z
    · rw [if_pos hz, if_pos hz, ih]
      cases hH : subtractiveHeights cfg n (z - cfg.step_down) with
      | none => rfl
      | some hs => simp [List.append_assoc]
    · rw [if_neg hz, if_neg hz]
      simp

/-- With a positive step-down, the number of heights visited downward
from `z` is `⌊(z - min_z + eps) / step_down⌋ + 1` whenever the loop
guard admits `z` at all. -/
theorem subtractiveHeights_length {cfg : SubtractiveConfig}
    (hpos : 0 < cfg.step_down) :
    ∀ (fuel : ℕ) (z : Real) (hs : List Real),
      subtractiveHeights cfg fuel z = some hs →
      cfg.min_z - eps ≤ z →
      hs.length = (⌊(z - cfg.min_z + eps) / cfg.step_down⌋).toNat + 1 := by
  intro fuel
  induction fuel with
  | zero =>
    intro z hs h
    rw [subtractiveHeights] at h
    exact absurd h (by simp)
  | succ n ih =>
    intro z hs h hz
    rw [subtractiveHeights, if_pos hz, Option.map_eq_some'] at h
    obtain ⟨hs', hh, rfl⟩ := h
    by_cases hz' : cfg.min_z - eps ≤ z - cfg.step_down
    · have hrec := ih (z - cfg.step_down) hs' hh hz'
      have hne : cfg.step_down ≠ 0 := ne_of_gt hpos
      have estep : (z - cfg.min_z + eps) / cfg.step_down =
          (z - cfg.step_down - cfg.min_z + eps) / cfg.step_down + 1 := by
        field_simp
        ring
      have hnum : 0 ≤ z - cfg.step_down - cfg.min_z + eps := by linarith
      have hfl : 0 ≤ ⌊(z - cfg.step_down - cfg.min_z + eps) /
          cfg.step_down⌋ :=
        Int.floor_nonneg.mpr (div_nonneg hnum (le_of_lt hpos))
      rw [List.length_cons, hrec, estep, Int.floor_add_one]
      omega
    · have hnil : hs' = [] := by
        cases n with
        | zero =>
          rw [subtractiveHeights] at hh
          exact absurd hh (by simp)
        | succ m =>
          rw [subtractiveHeights, if_neg hz'] at hh
          cases hh; rfl
      subst hnil
      have h0 : ⌊(z - cfg.min_z + eps) / cfg.step_down⌋ = 0 := by
        rw [Int.floor_eq_zero_iff, Set.mem_Ico]
        constructor
        · exact div_nonneg (by linarith) (le_of_lt hpos)
        · rw [div_lt_one hpos]
          linarith
      rw [h0]
      rfl

/-- With a positive step-down, the visited heights are strictly
descending and bounded above by the starting height. -/
theorem subtractiveHeights_sorted {cfg : SubtractiveConfig}
    (hpos : 0 < cfg.step_down) :
    ∀ (fuel : ℕ) (z : Real) (hs : List Real),
      subtractiveHeights cfg fuel z = some hs →
      hs.Sorted (· > ·) ∧ ∀ y ∈ hs, y ≤ z := by
  intro fuel
  induction fuel with
  | zero =>
    intro z hs h
    rw [subtractiveHeights] at h
    exact absurd h (by simp)
  | succ n ih =>
    intro z hs h
    rw [subtractiveHeights] at h
    by_cases hz : cfg.min_z - eps ≤ z
    · rw [if_pos hz, Option.map_eq_some'] at h
      obtain ⟨hs', hh, rfl⟩ := h
      obtain ⟨hsort, hub⟩ := ih (z - cfg.step_down) hs' hh
      constructor
      · rw [List.sorted_cons]
        exact ⟨fun b hb => lt_of_le_of_lt (hub b hb) (by linarith), hsort⟩
      · intro y hy
        rcases List.mem_cons.mp hy with hy | hy
        · exact le_of_eq hy
        · linarith [hub y hy]
    · rw [if_neg hz] at h
      cases h
      simp

/-- With a non-positive step-down and the guard initially true, the
subtractive loop never finishes: no amount of fuel returns a value. -/
theorem subtractiveLoop_none_of_nonpos {model : CSG} {cfg : SubtractiveConfig}
    (hh : cfg.step_down ≤ 0) :
    ∀ (fuel : ℕ) (z : Real) (acc : List ToolpathSegment),
      cfg.min_z - eps ≤ z → subtractiveLoop model cfg fuel z acc = none := by
  intro fuel
  induction fuel with
  | zero => intro z acc _; rfl
  | succ n ih =>
    intro z acc hz
    rw [subtractiveLoop, if_pos hz]
    exact ih (z - cfg.step_down) _ (by linarith)

/-- The subtractive loop body satisfies the same characterization as the
additive one: the two bodies are definitionally the same function. -/
theorem mem_subtractiveSliceAt {model : CSG} {z : Real} {seg : ToolpathSegment}
    (h : seg ∈ subtractiveSliceAt model z) :
    3 ≤ seg.points.length ∧ (∀ p ∈ seg.points, p.z = z) ∧
    ∃ poly ∈ (model.translate ⟨0, 0, -z⟩).slice ⟨Vector3.zAxis, 0⟩,
      3 ≤ poly.vertices.length ∧
      seg.points = poly.to_polyline.vertex_data.map
        (fun v2d => ⟨v2d.x, v2d.y, z⟩) :=
  mem_additiveSliceAt h

/-- Concrete evaluation: the additive generator on `sampleModel` with
`addCfg` slices heights 0 and 1 and emits the two square loops. -/
theorem addRun_eval :
    AdditiveToolpathGenerator.generate_toolpaths 3 sampleModel addCfg =
      some addOut := by
  norm_num [AdditiveToolpathGenerator.generate_toolpaths, additiveLoop,
    additiveSliceAt, CSG.translate, CSG.slice, Polygon.to_polyline,
    sampleModel, squarePoly, eps, addCfg, addOut, squareSegAt,
    List.filterMap_cons]

/-- Concrete evaluation: the subtractive generator on `sampleModel` with
`subCfg` slices heights 2 and 0 and emits the two square loops. -/
theorem subRun_eval :
    SubtractiveToolpathGenerator.generate_toolpaths 3 sampleModel subCfg =
      some subOut := by
  norm_num [SubtractiveToolpathGenerator.generate_toolpaths, subtractiveLoop,
    subtractiveSliceAt, CSG.translate, CSG.slice, Polygon.to_polyline,
    sampleModel, squarePoly, eps, subCfg, subOut, squareSegAt,
    List.filterMap_cons]

/-- Concrete evaluation: the shared loop body on `sampleModel` at height
2 emits exactly the square loop at height 2. -/
theorem sliceAt_sample_eval : additiveSliceAt sampleModel 2 = [squareSegAt 2] :=
  rfl

/-- Concrete evaluation: with `min_z = 1 + 5e-8 > max_z = 1` the
additive generator still slices one layer, at `min_z`. -/
theorem nearDegenerateRun_eval :
    AdditiveToolpathGenerator.generate_toolpaths 3 sampleModel
        nearDegenerateCfg =
      some ⟨[squareSegAt (1 + 1 / 20000000)]⟩ := by
  norm_num [AdditiveToolpathGenerator.generate_toolpaths, additiveLoop,
    additiveSliceAt, CSG.translate, CSG.slice, Polygon.to_polyline,
    sampleModel, squarePoly, eps, nearDegenerateCfg, squareSegAt,
    List.filterMap_cons]

/-- C1: contrary to the claim, neither generator rejects an invalid
configuration. With `layer_height ≤ 0` (additive) or `step_down ≤ 0`
(subtractive) and `min_z ≤ max_z`, the while loop never exits: no
amount of fuel produces a result, and the return type `ToolpathSet`
offers no error channel, so no descriptive failure can reach the
caller. -/
theorem invalid_config_never_returns
    (model : CSG) (cfgA : AdditiveConfig) (cfgS : SubtractiveConfig)
    (hA : cfgA.layer_height ≤ 0) (hzA : cfgA.min_z ≤ cfgA.max_z)
    (hS : cfgS.step_down ≤ 0) (hzS : cfgS.min_z ≤ cfgS.max_z) :
    (∀ fuel, AdditiveToolpathGenerator.generate_toolpaths fuel model cfgA
        = none) ∧
    (∀ fuel, SubtractiveToolpathGenerator.generate_toolpaths fuel model cfgS
        = none) := by
  have hepspos : (0 : ℚ) < eps := by norm_num [eps]
  constructor
  · intro fuel
    rw [AdditiveToolpathGenerator.generate_toolpaths,
      additiveLoop_none_of_nonpos hA fuel cfgA.min_z [] (by linarith)]
    rfl
  · intro fuel
    rw [SubtractiveToolpathGenerator.generate_toolpaths,
      subtractiveLoop_none_of_nonpos hS fuel cfgS.max_z [] (by linarith)]
    rfl

/-- Witness for C1: with `layer_height = 0` resp. `step_down = 0` and
`min_z = 0 ≤ 1 = max_z`, both generators fail to finish at fuel 9. -/
theorem invalid_config_never_returns_witness :
    invalidAddCfg.layer_height ≤ 0 ∧ invalidAddCfg.min_z ≤ invalidAddCfg.max_z ∧
    invalidSubCfg.step_down ≤ 0 ∧ invalidSubCfg.min_z ≤ invalidSubCfg.max_z ∧
    AdditiveToolpathGenerator.generate_toolpaths 9 sampleModel invalidAddCfg
      = none ∧
    SubtractiveToolpathGenerator.generate_toolpaths 9 sampleModel invalidSubCfg
      = none := by
  refine ⟨by norm_num [invalidAddCfg], by norm_num [invalidAddCfg],
    by norm_num [invalidSubCfg], by norm_num [invalidSubCfg], ?_, ?_⟩
  · exact (invalid_config_never_returns sampleModel invalidAddCfg invalidSubCfg
      (by norm_num [invalidAddCfg]) (by norm_num [invalidAddCfg])
      (by norm_num [invalidSubCfg]) (by norm_num [invalidSubCfg])).1 9
  · exact (invalid_config_never_returns sampleModel invalidAddCfg invalidSubCfg
      (by norm_num [invalidAddCfg]) (by norm_num [invalidAddCfg])
      (by norm_num [invalidSubCfg]) (by norm_num [invalidSubCfg])).2 9

/-- C2: every segment in the `ToolpathSet` returned by either generator,
for any model and configuration, has at least 3 points; polygons with
fewer than 3 vertices are dropped and yield no segment. -/
theorem segments_at_least_three_points
    (model : CSG) (cfgA : AdditiveConfig) (cfgS : SubtractiveConfig)
    (fuelA fuelS : ℕ) (tsA tsS : ToolpathSet)
    (hA : AdditiveToolpathGenerator.generate_toolpaths fuelA model cfgA
        = some tsA)
    (hS : SubtractiveToolpathGenerator.generate_toolpaths fuelS model cfgS
        = some tsS) :
    (∀ s ∈ tsA.segments, 3 ≤ s.points.length) ∧
    (∀ s ∈ tsS.segments, 3 ≤ s.points.length) := by
  constructor
  · rw [AdditiveToolpathGenerator.generate_toolpaths,
      Option.map_eq_some'] at hA
    obtain ⟨res, hres, hts⟩ := hA
    rw [additiveLoop_decompose, Option.map_eq_some'] at hres
    obtain ⟨hs, hhs, hres'⟩ := hres
    intro s hsmem
    rw [← hts, ← hres'] at hsmem
    simp only [List.nil_append] at hsmem
    rw [List.mem_flatMap] at hsmem
    obtain ⟨z, _, hz⟩ := hsmem
    exact (mem_additiveSliceAt hz).1
  · rw [SubtractiveToolpathGenerator.generate_toolpaths,
      Option.map_eq_some'] at hS
    obtain ⟨res, hres, hts⟩ := hS
    rw [subtractiveLoop_decompose, Option.map_eq_some'] at hres
    obtain ⟨hs, hhs, hres'⟩ := hres
    intro s hsmem
    rw [← hts, ← hres'] at hsmem
    simp only [List.nil_append] at hsmem
    rw [List.mem_flatMap] at hsmem
    obtain ⟨z, _, hz⟩ := hsmem
    exact (mem_subtractiveSliceAt hz).1

/-- Witness for C2: both generators run on `sampleModel`, and every
segment of both outputs has at least 3 points. -/
theorem segments_at_least_three_points_witness :
    AdditiveToolpathGenerator.generate_toolpaths 3 sampleModel addCfg
      = some addOut ∧
    SubtractiveToolpathGenerator.generate_toolpaths 3 sampleModel subCfg
      = some subOut ∧
    (∀ s ∈ addOut.segments, 3 ≤ s.points.length) ∧
    (∀ s ∈ subOut.segments, 3 ≤ s.points.length) :=
  ⟨addRun_eval, subRun_eval,
    (segments_at_least_three_points sampleModel addCfg subCfg 3 3 addOut subOut
      addRun_eval subRun_eval).1,
    (segments_at_least_three_points sampleModel addCfg subCfg 3 3 addOut subOut
      addRun_eval subRun_eval).2⟩

/-- C3: for valid configurations, the additive generator samples exactly
`⌊(max_z - min_z + eps) / layer_height⌋ + 1` heights (the claimed
`⌊(max_z - min_z) / layer_height⌋ + 1` with the stated tolerance `eps`
entering the loop bound), and the subtractive generator samples the
analogous count descending from `max_z`; the returned segments are
exactly those of the sampled heights. -/
theorem height_sample_count
    (model : CSG) (cfgA : AdditiveConfig) (cfgS : SubtractiveConfig)
    (fuelA fuelS : ℕ) (tsA tsS : ToolpathSet)
    (hposA : 0 < cfgA.layer_height) (hordA : cfgA.min_z ≤ cfgA.max_z)
    (hposS : 0 < cfgS.step_down) (hordS : cfgS.min_z ≤ cfgS.max_z)
    (hA : AdditiveToolpathGenerator.generate_toolpaths fuelA model cfgA
        = some tsA)
    (hS : SubtractiveToolpathGenerator.generate_toolpaths fuelS model cfgS
        = some tsS) :
    (∃ hs, additiveHeights cfgA fuelA cfgA.min_z = some hs ∧
      tsA.segments = hs.flatMap (additiveSliceAt model) ∧
      hs.length =
        (⌊(cfgA.max_z - cfgA.min_z + eps) / cfgA.layer_height⌋).toNat + 1) ∧
    (∃ hs, subtractiveHeights cfgS fuelS cfgS.max_z = some hs ∧
      tsS.segments = hs.flatMap (subtractiveSliceAt model) ∧
      hs.length =
        (⌊(cfgS.max_z - cfgS.min_z + eps) / cfgS.step_down⌋).toNat + 1) := by
  have hepspos : (0 : ℚ) < eps := by norm_num [eps]
  constructor
  · rw [AdditiveToolpathGenerator.generate_toolpaths,
      Option.map_eq_some'] at hA
    obtain ⟨res, hres, hts⟩ := hA
    rw [additiveLoop_decompose, Option.map_eq_some'] at hres
    obtain ⟨hs, hhs, hres'⟩ := hres
    refine ⟨hs, hhs, ?_, ?_⟩
    · rw [← hts, ← hres']
      simp
    · have hlen := additiveHeights_length hposA fuelA cfgA.min_z hs hhs
        (by linarith)
      rw [hlen]
      have harg : cfgA.max_z + eps - cfgA.min_z
          = cfgA.max_z - cfgA.min_z + eps := by ring
      rw [harg]
  · rw [SubtractiveToolpathGenerator.generate_toolpaths,
      Option.map_eq_some'] at hS
    obtain ⟨res, hres, hts⟩ := hS
    rw [subtractiveLoop_decompose, Option.map_eq_some'] at hres
    obtain ⟨hs, hhs, hres'⟩ := hres
    refine ⟨hs, hhs, ?_, ?_⟩
    · rw [← hts, ← hres']
      simp
    · exact subtractiveHeights_length hposS fuelS cfgS.max_z hs hhs
        (by linarith)

/-- Witness for C3: on `addCfg` (layer 1, range [0,1]) and `subCfg`
(step 2, range [0,2]) both counts are 2. -/
theorem height_sample_count_witness :
    (0 : ℚ) < addCfg.layer_height ∧ addCfg.min_z ≤ addCfg.max_z ∧
    (0 : ℚ) < subCfg.step_down ∧ subCfg.min_z ≤ subCfg.max_z ∧
    ((∃ hs, additiveHeights addCfg 3 addCfg.min_z = some hs ∧
      addOut.segments = hs.flatMap (additiveSliceAt sampleModel) ∧
      hs.length =
        (⌊(addCfg.max_z - addCfg.min_z + eps) / addCfg.layer_height⌋).toNat
          + 1) ∧
    (∃ hs, subtractiveHeights subCfg 3 subCfg.max_z = some hs ∧
      subOut.segments = hs.flatMap (subtractiveSliceAt sampleModel) ∧
      hs.length =
        (⌊(subCfg.max_z - subCfg.min_z + eps) / subCfg.step_down⌋).toNat
          + 1)) :=
  ⟨by norm_num [addCfg], by norm_num [addCfg],
   by norm_num [subCfg], by norm_num [subCfg],
   height_sample_count sampleModel addCfg subCfg 3 3 addOut subOut
     (by norm_num [addCfg]) (by norm_num [addCfg])
     (by norm_num [subCfg]) (by norm_num [subCfg])
     addRun_eval subRun_eval⟩

/-- C4: every segment emitted by the shared loop body at height `z` has
all third coordinates equal to the originally requested `z`, and its
first two coordinates are taken unchanged, in order, from the 2D vertex
loop of a cross-section polygon of the translated model. -/
theorem points_carry_requested_height
    (model : CSG) (z : Real) (seg : ToolpathSegment)
    (h : seg ∈ additiveSliceAt model z ∨ seg ∈ subtractiveSliceAt model z) :
    (∀ p ∈ seg.points, p.z = z) ∧
    ∃ poly ∈ (model.translate ⟨0, 0, -z⟩).slice ⟨Vector3.zAxis, 0⟩,
      3 ≤ poly.vertices.length ∧
      seg.points = poly.to_polyline.vertex_data.map
        (fun v2d => ⟨v2d.x, v2d.y, z⟩) := by
  rcases h with h | h
  · exact ⟨(mem_additiveSliceAt h).2.1, (mem_additiveSliceAt h).2.2⟩
  · exact ⟨(mem_subtractiveSliceAt h).2.1, (mem_subtractiveSliceAt h).2.2⟩

/-- Witness for C4: the square segment at height 2 is emitted by the
loop body on `sampleModel`, all its z-coordinates are 2, and its xy
coordinates come from the cross-section polygon's 2D loop. -/
theorem points_carry_requested_height_witness :
    squareSegAt 2 ∈ additiveSliceAt sampleModel 2 ∧
    ((∀ p ∈ (squareSegAt 2).points, p.z = 2) ∧
    ∃ poly ∈ (sampleModel.translate ⟨0, 0, -2⟩).slice ⟨Vector3.zAxis, 0⟩,
      3 ≤ poly.vertices.length ∧
      (squareSegAt 2).points = poly.to_polyline.vertex_data.map
        (fun v2d => ⟨v2d.x, v2d.y, 2⟩)) :=
  ⟨by rw [sliceAt_sample_eval]; exact List.mem_singleton.mpr rfl,
   points_carry_requested_height sampleModel 2 (squareSegAt 2)
     (Or.inl (by rw [sliceAt_sample_eval]; exact List.mem_singleton.mpr rfl))⟩

/-- C5 counterexample: the claim fails as stated. With
`min_z = 1 + 5e-8 > 1 = max_z` the additive generator does not return
an empty `ToolpathSet`: the `z <= max_z + 1e-7` guard still admits
`min_z`, so one layer is sliced. -/
theorem degenerate_range_counterexample :
    nearDegenerateCfg.max_z < nearDegenerateCfg.min_z ∧
    AdditiveToolpathGenerator.generate_toolpaths 3 sampleModel
        nearDegenerateCfg =
      some ⟨[squareSegAt (1 + 1 / 20000000)]⟩ ∧
    AdditiveToolpathGenerator.generate_toolpaths 3 sampleModel
        nearDegenerateCfg ≠ some ⟨[]⟩ := by
  refine ⟨by norm_num [nearDegenerateCfg], nearDegenerateRun_eval, ?_⟩
  rw [nearDegenerateRun_eval]
  simp [squareSegAt]

/-- C5 amended: for every model and additive configuration with
`min_z > max_z + eps`, the generator terminates at once with an empty
`ToolpathSet`, treated as a normal (non-error) result. -/
theorem degenerate_range_empty
    (model : CSG) (cfg : AdditiveConfig) (fuel : ℕ)
    (hrange : cfg.max_z + eps < cfg.min_z) (hfuel : 1 ≤ fuel) :
    AdditiveToolpathGenerator.generate_toolpaths fuel model cfg
      = some ⟨[]⟩ := by
  obtain ⟨n, rfl⟩ : ∃ n, fuel = n + 1 := ⟨fuel - 1, by omega⟩
  rw [AdditiveToolpathGenerator.generate_toolpaths, additiveLoop,
    if_neg (by linarith)]
  rfl

/-- Witness for C5 amended: with `min_z = 2 > 0 + eps = max_z + eps`
the additive generator returns the empty set at fuel 1. -/
theorem degenerate_range_empty_witness :
    emptyRangeCfg.max_z + eps < emptyRangeCfg.min_z ∧ 1 ≤ 1 ∧
    AdditiveToolpathGenerator.generate_toolpaths 1 sampleModel emptyRangeCfg
      = some ⟨[]⟩ :=
  ⟨by norm_num [emptyRangeCfg, eps], le_refl 1,
   degenerate_range_empty sampleModel emptyRangeCfg 1
     (by norm_num [emptyRangeCfg, eps]) (le_refl 1)⟩

/-- C6: the returned segments appear in height-iteration order: the
additive output is the concatenation, over a strictly ascending height
sequence, of the per-height segments; the subtractive output likewise
over a strictly descending sequence. -/
theorem segments_in_height_order
    (model : CSG) (cfgA : AdditiveConfig) (cfgS : SubtractiveConfig)
    (fuelA fuelS : ℕ) (tsA tsS : ToolpathSet)
    (hposA : 0 < cfgA.layer_height) (hposS : 0 < cfgS.step_down)
    (hA : AdditiveToolpathGenerator.generate_toolpaths fuelA model cfgA
        = some tsA)
    (hS : SubtractiveToolpathGenerator.generate_toolpaths fuelS model cfgS
        = some tsS) :
    (∃ hs, additiveHeights cfgA fuelA cfgA.min_z = some hs ∧
      hs.Sorted (· < ·) ∧
      tsA.segments = hs.flatMap (additiveSliceAt model)) ∧
    (∃ hs, subtractiveHeights cfgS fuelS cfgS.max_z = some hs ∧
      hs.Sorted (· > ·) ∧
      tsS.segments = hs.flatMap (subtractiveSliceAt model)) := by
  constructor
  · rw [AdditiveToolpathGenerator.generate_toolpaths,
      Option.map_eq_some'] at hA
    obtain ⟨res, hres, hts⟩ := hA
    rw [additiveLoop_decompose, Option.map_eq_some'] at hres
    obtain ⟨hs, hhs, hres'⟩ := hres
    refine ⟨hs, hhs, (additiveHeights_sorted hposA fuelA cfgA.min_z hs hhs).1,
      ?_⟩
    rw [← hts, ← hres']
    simp
  · rw [SubtractiveToolpathGenerator.generate_toolpaths,
      Option.map_eq_some'] at hS
    obtain ⟨res, hres, hts⟩ := hS
    rw [subtractiveLoop_decompose, Option.map_eq_some'] at hres
    obtain ⟨hs, hhs, hres'⟩ := hres
    refine ⟨hs, hhs,
      (subtractiveHeights_sorted hposS fuelS cfgS.max_z hs hhs).1, ?_⟩
    rw [← hts, ← hres']
    simp

/-- Witness for C6: on the sample runs the additive heights ascend and
the subtractive heights descend. -/
theorem segments_in_height_order_witness :
    (0 : ℚ) < addCfg.layer_height ∧ (0 : ℚ) < subCfg.step_down ∧
    ((∃ hs, additiveHeights addCfg 3 addCfg.min_z = some hs ∧
      hs.Sorted (· < ·) ∧
      addOut.segments = hs.flatMap (additiveSliceAt sampleModel)) ∧
    (∃ hs, subtractiveHeights subCfg 3 subCfg.max_z = some hs ∧
      hs.Sorted (· > ·) ∧
      subOut.segments = hs.flatMap (subtractiveSliceAt sampleModel))) :=
  ⟨by norm_num [addCfg], by norm_num [subCfg],
   segments_in_height_order sampleModel addCfg subCfg 3 3 addOut subOut
     (by norm_num [addCfg]) (by norm_num [subCfg]) addRun_eval subRun_eval⟩

/-- C7: the generators never mutate the original model. `translate`
returns a fresh translated copy built from the unchanged input, and the
output of either run is a pure function of the original model: the
concatenation over the visited heights of the per-height slices of the
original (each slice translating the original afresh). -/
theorem model_never_mutated
    (model : CSG) (v : Vector3)
    (cfgA : AdditiveConfig) (cfgS : SubtractiveConfig)
    (fuelA fuelS : ℕ) (tsA tsS : ToolpathSet)
    (hA : AdditiveToolpathGenerator.generate_toolpaths fuelA model cfgA
        = some tsA)
    (hS : SubtractiveToolpathGenerator.generate_toolpaths fuelS model cfgS
        = some tsS) :
    model.translate v =
      ⟨⟨model.offset.x + v.x, model.offset.y + v.y, model.offset.z + v.z⟩,
        model.sliceRaw⟩ ∧
    (∃ hs, additiveHeights cfgA fuelA cfgA.min_z = some hs ∧
      tsA.segments = hs.flatMap
        (fun z => additiveSliceAt model z)) ∧
    (∃ hs, subtractiveHeights cfgS fuelS cfgS.max_z = some hs ∧
      tsS.segments = hs.flatMap
        (fun z => subtractiveSliceAt model z)) := by
  refine ⟨rfl, ?_, ?_⟩
  · rw [AdditiveToolpathGenerator.generate_toolpaths,
      Option.map_eq_some'] at hA
    obtain ⟨res, hres, hts⟩ := hA
    rw [additiveLoop_decompose, Option.map_eq_some'] at hres
    obtain ⟨hs, hhs, hres'⟩ := hres
    refine ⟨hs, hhs, ?_⟩
    rw [← hts, ← hres']
    simp
  · rw [SubtractiveToolpathGenerator.generate_toolpaths,
      Option.map_eq_some'] at hS
    obtain ⟨res, hres, hts⟩ := hS
    rw [subtractiveLoop_decompose, Option.map_eq_some'] at hres
    obtain ⟨hs, hhs, hres'⟩ := hres
    refine ⟨hs, hhs, ?_⟩
    rw [← hts, ← hres']
    simp

/-- Witness for C7 at the sample runs, with translation vector
`(1, 2, 3)`. -/
theorem model_never_mutated_witness :
    sampleModel.translate ⟨1, 2, 3⟩ =
      ⟨⟨sampleModel.offset.x + 1, sampleModel.offset.y + 2,
        sampleModel.offset.z + 3⟩, sampleModel.sliceRaw⟩ ∧
    (∃ hs, additiveHeights addCfg 3 addCfg.min_z = some hs ∧
      addOut.segments = hs.flatMap
        (fun z => additiveSliceAt sampleModel z)) ∧
    (∃ hs, subtractiveHeights subCfg 3 subCfg.max_z = some hs ∧
      subOut.segments = hs.flatMap
        (fun z => subtractiveSliceAt sampleModel z)) :=
  model_never_mutated sampleModel ⟨1, 2, 3⟩ addCfg subCfg 3 3 addOut subOut
    addRun_eval subRun_eval

/-- C8: the per-height slicing step is deterministic: two invocations
with the same model and the same height produce identical segment
lists, point for point. -/
theorem slicing_deterministic
    (m1 m2 : CSG) (z1 z2 : Real) (hm : m1 = m2) (hz : z1 = z2) :
    pointForPointEq (additiveSliceAt m1 z1) (additiveSliceAt m2 z2) ∧
    pointForPointEq (subtractiveSliceAt m1 z1) (subtractiveSliceAt m2 z2) := by
  subst hm
  subst hz
  exact ⟨⟨rfl, fun i ha hb => rfl⟩, ⟨rfl, fun i ha hb => rfl⟩⟩

/-- Witness for C8 at `sampleModel` and height 2. -/
theorem slicing_deterministic_witness :
    pointForPointEq (additiveSliceAt sampleModel 2)
      (additiveSliceAt sampleModel 2) ∧
    pointForPointEq (subtractiveSliceAt sampleModel 2)
      (subtractiveSliceAt sampleModel 2) :=
  slicing_deterministic sampleModel sampleModel 2 2 rfl rfl

/-- C9: the additive and subtractive generators share one per-height
slicing algorithm: their loop bodies agree on every model and height,
so the two pipelines differ only in the heights visited and their
direction. -/
theorem shared_slicing_algorithm :
    ∀ (model : CSG) (z : Real),
      additiveSliceAt model z = subtractiveSliceAt model z :=
  fun _ _ => rfl

end IronPath
